import Mathlib

/-!
Verification of the subagents command layer (cli/src/subagents_cmd.rs).

The development shallowly embeds the data model and the operations of the
subagents CLI: toggle flags and their two derived views, the definition
store queries (list/show), and the run pipeline that assembles the argv
token sequence and the final override sequence handed to the executor.
Rust `Vec` values become `List`, `Option` stays `Option`, `HashMap` becomes
a function to `Option`, fallible functions return `Except String`.
-/

/-- Resolved subagent definition (codex_core::config::SubagentDefinition),
as consumed by the CLI layer: the name is the key of the surrounding map. -/
structure SubagentDefinition where
  display_name : Option String
  description : Option String
  system_prompt : Option String
  enabled : Bool
  allowed_tools : List String
  context_sources : List String
  triggers : List String
deriving Repr, DecidableEq

/-- Toggle flags collected by clap: `--enable` occurrences in order, and
`--disable` occurrences in order (struct SubagentToggleArgs). -/
structure SubagentToggleArgs where
  enable : List String
  disable : List String
deriving Repr, DecidableEq

/-- A single toggle flag occurrence on the command line. -/
inductive ToggleFlag where
  | enable (name : String)
  | disable (name : String)
deriving Repr, DecidableEq

/-- Clap collects repeated `--enable`/`--disable` occurrences with
`ArgAction::Append`: each occurrence is appended to the list of its own
option, in command-line order; the interleaving between the two options is
not retained. -/
def parseToggles (flags : List ToggleFlag) : SubagentToggleArgs :=
  flags.foldl
    (fun t f =>
      match f with
      | .enable n => { t with enable := t.enable ++ [n] }
      | .disable n => { t with disable := t.disable ++ [n] })
    ⟨[], []⟩

/-- Insertion into the `HashMap<String, bool>` model: a later insert for the
same key replaces the earlier value. -/
def hmInsert (m : String → Option Bool) (k : String) (v : Bool) : String → Option Bool :=
  fun q => if q = k then some v else m q

/-- SubagentToggleArgs::to_map: insert every enable entry as true, then every
disable entry as false, into one map. -/
def SubagentToggleArgs.to_map (t : SubagentToggleArgs) : String → Option Bool :=
  t.disable.foldl (fun m name => hmInsert m name false)
    (t.enable.foldl (fun m name => hmInsert m name true) (fun _ => none))

/-- SubagentToggleArgs::to_cli_overrides: push one override string per enable
entry, then one per disable entry, into one vector. -/
def SubagentToggleArgs.to_cli_overrides (t : SubagentToggleArgs) : List String :=
  let overrides : List String := []
  let overrides := t.enable.foldl
    (fun acc name => acc ++ [("subagents." ++ name ++ ".enabled=true")]) overrides
  t.disable.foldl
    (fun acc name => acc ++ [("subagents." ++ name ++ ".enabled=false")]) overrides

/-- The override string targeting the enabled flag of a named subagent
(the format string of to_cli_overrides and of the forced run override). -/
def enabledOverride (name : String) (value : Bool) : String :=
  "subagents." ++ name ++ (if value then ".enabled=true" else ".enabled=false")

/-- One step of positional last-wins merging, restricted to the overrides
that target the enabled flag of the given subagent name. -/
def enabledStep (name : String) (acc : Option Bool) (s : String) : Option Bool :=
  if s = enabledOverride name true then some true
  else if s = enabledOverride name false then some false
  else acc

/-- The value that positional last-wins merging assigns to
`subagents.<name>.enabled` after consuming the override sequence. -/
def lastEnabledValue (ovs : List String) (name : String) : Option Bool :=
  ovs.foldl (enabledStep name) none

/-- Lookup in the resolved definition store (BTreeMap::get on
config.subagents); the store is the list of entries in key order. -/
def subagentsGet (subagents : List (String × SubagentDefinition)) (name : String) :
    Option SubagentDefinition :=
  (subagents.find? (fun p => p.1 == name)).map (fun p => p.2)

/-- JSON values, as produced by serde_json. Object fields keep their
construction order. -/
inductive Json where
  | null
  | bool (b : Bool)
  | str (s : String)
  | arr (elems : List Json)
  | obj (fields : List (String × Json))

/-- Serialization of an Option String field: serde_json turns None into
null and Some s into a string. -/
def optStr : Option String → Json
  | none => Json.null
  | some s => Json.str s

/-- Serialization of a string sequence field: always an array. -/
def strArr (l : List String) : Json :=
  Json.arr (l.map Json.str)

/-- The json! payload built by show_subagent for `--format json`. -/
def showJsonPayload (name : String) (d : SubagentDefinition) : Json :=
  Json.obj
    [(("name"), Json.str name),
     (("display_name"), optStr d.display_name),
     (("description"), optStr d.description),
     (("enabled"), Json.bool d.enabled),
     (("system_prompt"), optStr d.system_prompt),
     (("allowed_tools"), strArr d.allowed_tools),
     (("context_sources"), strArr d.context_sources),
     (("triggers"), strArr d.triggers)]

/-- The keys of a JSON object, in order. -/
def jsonKeys : Json → List String
  | Json.obj fields => fields.map (fun p => p.1)
  | _ => []

/-- The value of the first field with the given key in a JSON object. -/
def jsonLookup (k : String) : Json → Option Json
  | Json.obj fields => (fields.find? (fun p => p.1 == k)).map (fun p => p.2)
  | _ => none

/-- Rust Display for bool, used by the `Enabled:` line. -/
def boolString (b : Bool) : String :=
  if b then "true" else "false"

/-- Vec::join with a comma separator. -/
def joinComma (l : List String) : String :=
  String.intercalate (", ") l

/-- The lines printed by show_subagent in human format, in order: optional
lines are emitted only when the field is present, while the three sequence
fields always get a line (with an explicit marker when empty). The system
prompt is printed by a single println whose text embeds a newline. -/
def humanShowLines (name : String) (d : SubagentDefinition) : List String :=
  [("Name: " ++ name)] ++
    (match d.display_name with
      | some display => [("Display name: " ++ display)]
      | none => []) ++
    (match d.description with
      | some description => [("Description: " ++ description)]
      | none => []) ++
    [("Enabled: " ++ boolString d.enabled)] ++
    (match d.system_prompt with
      | some prompt => [("System prompt:\n" ++ prompt)]
      | none => []) ++
    [(if d.allowed_tools.isEmpty then ("Allowed tools: (inherit default)")
      else ("Allowed tools: " ++ joinComma d.allowed_tools))] ++
    [(if d.context_sources.isEmpty then ("Context sources: (none)")
      else ("Context sources: " ++ joinComma d.context_sources))] ++
    [(if d.triggers.isEmpty then ("Triggers: (manual)")
      else ("Triggers: " ++ joinComma d.triggers))]

/-- The tag of a printed line: its characters up to the first colon. Every
field line starts with a fixed field label followed by a colon, so the tag
identifies which field a line renders, independently of the field value. -/
def lineTag (l : String) : List Char :=
  l.data.takeWhile (fun c => c != ':')

/-- The two output formats of the show subcommand. -/
inductive SubagentShowFormat where
  | human
  | json
deriving Repr, DecidableEq

/-- Arguments of the show subcommand. -/
structure SubagentShowArgs where
  name : String
  format : SubagentShowFormat
deriving Repr, DecidableEq

/-- What the show subcommand prints on success. -/
inductive ShowOutput where
  | human (lines : List String)
  | json (payload : Json)

/-- show_subagent: resolve the name in the store or fail, then render the
definition in the requested format. -/
def show_subagent (subagents : List (String × SubagentDefinition))
    (args : SubagentShowArgs) : Except String ShowOutput :=
  match subagentsGet subagents args.name with
  | none => Except.error ("unknown subagent `" ++ args.name ++ "`")
  | some definition =>
    match args.format with
    | SubagentShowFormat.human => Except.ok (ShowOutput.human (humanShowLines args.name definition))
    | SubagentShowFormat.json => Except.ok (ShowOutput.json (showJsonPayload args.name definition))

/-- Left-justified padding to a column width, as the Rust width format
specifier does: pad with spaces, never truncate. -/
def padRight (s : String) (width : Nat) : String :=
  s ++ String.mk (List.replicate (width - s.length) (' '))

/-- The em dash placeholder printed for a missing display name. -/
def emDash : String := "—"

/-- The lines printed by print_subagent_list: a single message when the
store is empty, otherwise a header line followed by one row per entry. -/
def print_subagent_list (subagents : List (String × SubagentDefinition)) : List String :=
  if subagents.isEmpty then [("No subagents are configured.")]
  else
    (padRight ("Name") 24 ++ " " ++ padRight ("Enabled") 10 ++ " Display Name") ::
      subagents.map (fun p =>
        padRight p.1 24 ++ " " ++
          padRight (if p.2.enabled then ("yes") else ("no")) 10 ++ " " ++
          (p.2.display_name.getD emDash))

/-- The sandbox mode selector (codex_common::SandboxModeCliArg). -/
inductive SandboxModeCliArg where
  | readOnly
  | workspaceWrite
  | dangerFullAccess
deriving Repr, DecidableEq

/-- Modelled from the spec: the canonical enumerant name of a sandbox mode
(the clap ValueEnum kebab-case possible value used by run_subagent); the
enum itself lives outside this crate in codex_common. -/
def sandboxModeName : SandboxModeCliArg → String
  | SandboxModeCliArg.readOnly => "read-only"
  | SandboxModeCliArg.workspaceWrite => "workspace-write"
  | SandboxModeCliArg.dangerFullAccess => "danger-full-access"

/-- Arguments of the run subcommand (struct SubagentRunArgs); the working
directory is kept as the string its path displays as. -/
structure SubagentRunArgs where
  name : String
  prompt : Option String
  json : Bool
  oss : Bool
  full_auto : Bool
  dangerously_bypass_approvals_and_sandbox : Bool
  sandbox_mode : Option SandboxModeCliArg
  cwd : Option String
  config_profile : Option String
  model : Option String
deriving Repr, DecidableEq

/-- The argv token sequence assembled by run_subagent, push by push in
source order. -/
def buildArgv (args : SubagentRunArgs) : List String :=
  let argv : List String := [("codex-subagent-run")]
  let argv := if args.json then argv ++ [("--json")] else argv
  let argv := if args.oss then argv ++ [("--oss")] else argv
  let argv := if args.full_auto then argv ++ [("--full-auto")] else argv
  let argv := if args.dangerously_bypass_approvals_and_sandbox then
      argv ++ [("--dangerously-bypass-approvals-and-sandbox")] else argv
  let argv := match args.sandbox_mode with
    | some mode => argv ++ [("--sandbox"), sandboxModeName mode]
    | none => argv
  let argv := match args.model with
    | some model => argv ++ [("-m"), model]
    | none => argv
  let argv := match args.config_profile with
    | some profile => argv ++ [("-p"), profile]
    | none => argv
  let argv := match args.cwd with
    | some cwd => argv ++ [("-C"), cwd]
    | none => argv
  match args.prompt with
  | some prompt => argv ++ [prompt]
  | none => argv

/-- The value part of an optional flag-plus-value segment of the claim
statement: a flag token immediately followed by its value token when the
input is present, nothing otherwise. -/
def flagValueTokens (flag : String) : Option String → List String
  | some v => [flag, v]
  | none => []

/-- A Bool-guarded single-token segment of the claim statement. -/
def boolFlagTokens (flag : String) : Bool → List String
  | true => [flag]
  | false => []

/-- The hexadecimal digit character for a value below 16, lowercase. -/
def hexDigitChar (n : Nat) : Char :=
  if n < 10 then Char.ofNat (('0').toNat + n) else Char.ofNat (('a').toNat + (n - 10))

/-- Modelled from the spec: the escaping of one character under the base
configuration format quoted-string grammar (TOML basic string), as performed
by the external toml crate when run_subagent stringifies
TomlValue::String(prompt): the named escapes for backspace, tab, newline,
form feed, carriage return, quote and backslash, a \u00XX escape for the
remaining control characters, and all other characters verbatim. -/
def escapeChar (c : Char) : List Char :=
  if c = Char.ofNat 8 then ['\\', 'b']
  else if c = '\t' then ['\\', 't']
  else if c = '\n' then ['\\', 'n']
  else if c = Char.ofNat 12 then ['\\', 'f']
  else if c = '\r' then ['\\', 'r']
  else if c = '"' then ['\\', '"']
  else if c = '\\' then ['\\', '\\']
  else if c.toNat < 32 ∨ c.toNat = 127 then
    ['\\', 'u', '0', '0', hexDigitChar (c.toNat / 16), hexDigitChar (c.toNat % 16)]
  else [c]

/-- Modelled from the spec: the quoted/escaped scalar encoding of a prompt
string, `TomlValue::String(prompt).to_string()` in run_subagent. -/
def encodeTomlString (s : String) : String :=
  ⟨('"') :: s.data.flatMap escapeChar ++ [('"')]⟩

/-- The numeric value of a hexadecimal digit character, if any. -/
def hexCharValue : Char → Option Nat :=
  fun c =>
    if ('0') ≤ c ∧ c ≤ ('9') then some (c.toNat - ('0').toNat)
    else if ('a') ≤ c ∧ c ≤ ('f') then some (c.toNat - ('a').toNat + 10)
    else if ('A') ≤ c ∧ c ≤ ('F') then some (c.toNat - ('A').toNat + 10)
    else none

/-- The TOML basic-string body grammar: consume characters up to an
unescaped closing quote, rejecting raw control characters, and return the
decoded content together with the unconsumed remainder. -/
def decodeBasicBody (l : List Char) : Option (List Char × List Char) :=
  match l with
  | [] => none
  | c :: rest =>
    if c = '"' then some ([], rest)
    else if c = '\\' then
      match rest with
      | [] => none
      | e :: rest1 =>
        if e = 'b' then (decodeBasicBody rest1).map (fun p => (Char.ofNat 8 :: p.1, p.2))
        else if e = 't' then (decodeBasicBody rest1).map (fun p => ('\t' :: p.1, p.2))
        else if e = 'n' then (decodeBasicBody rest1).map (fun p => ('\n' :: p.1, p.2))
        else if e = 'f' then (decodeBasicBody rest1).map (fun p => (Char.ofNat 12 :: p.1, p.2))
        else if e = 'r' then (decodeBasicBody rest1).map (fun p => ('\r' :: p.1, p.2))
        else if e = '"' then (decodeBasicBody rest1).map (fun p => (('"') :: p.1, p.2))
        else if e = '\\' then (decodeBasicBody rest1).map (fun p => (('\\') :: p.1, p.2))
        else if e = 'u' then
          match rest1 with
          | h1 :: h2 :: h3 :: h4 :: rest2 =>
            match hexCharValue h1, hexCharValue h2, hexCharValue h3, hexCharValue h4 with
            | some v1, some v2, some v3, some v4 =>
              (decodeBasicBody rest2).map
                (fun p => (Char.ofNat (((v1 * 16 + v2) * 16 + v3) * 16 + v4) :: p.1, p.2))
            | _, _, _, _ => none
          | _ => none
        else none
    else if c.toNat < 32 ∨ c.toNat = 127 then none
    else (decodeBasicBody rest).map (fun p => (c :: p.1, p.2))
termination_by l.length
decreasing_by all_goals simp_wf <;> omega

/-- Decoding a whole quoted scalar: an opening quote, a basic-string body,
and nothing left over. -/
def decodeTomlString (s : String) : Option String :=
  match s.data with
  | c :: rest =>
    if c = '"' then
      match decodeBasicBody rest with
      | some (content, []) => some ⟨content⟩
      | _ => none
    else none
  | [] => none

/-- The executor invocation assembled by run_subagent: the argv token
sequence parsed into the exec CLI, and the override sequence installed on
it. -/
structure Invocation where
  argv : List String
  overrides : List String
deriving Repr, DecidableEq

/-- run_subagent: resolve the subagent or fail before anything is
assembled; then build the argv token sequence, and extend the (initially
empty) exec override sequence with the user-supplied overrides (root-scope
ones spliced in front of subcommand-scope ones by SubagentsCli::run), the
toggle-derived overrides, the forced enable override for the target, and,
when the resolved definition has a system prompt, the encoded
base_instructions override. -/
def run_subagent (subagents : List (String × SubagentDefinition))
    (args : SubagentRunArgs) (rootOverrides subcommandOverrides : List String)
    (toggles : SubagentToggleArgs) : Except String Invocation :=
  match subagentsGet subagents args.name with
  | none => Except.error ("unknown subagent `" ++ args.name ++ "`")
  | some definition =>
    let raw : List String := []
    let raw := raw ++ (rootOverrides ++ subcommandOverrides)
    let raw := raw ++ toggles.to_cli_overrides
    let raw := raw ++ [("subagents." ++ args.name ++ ".enabled=true")]
    let raw :=
      match definition.system_prompt with
      | some prompt => raw ++ [("base_instructions=" ++ encodeTomlString prompt)]
      | none => raw
    Except.ok { argv := buildArgv args, overrides := raw }

/-- The trailing base-instructions segment of the override sequence of a
run: present exactly when the resolved definition has a system prompt. -/
def promptOverrides (d : SubagentDefinition) : List String :=
  match d.system_prompt with
  | some prompt => [("base_instructions=" ++ encodeTomlString prompt)]
  | none => []

/-- The reviewer definition of the repository test suite, used as a concrete
evaluation vector. -/
def reviewerDefinition : SubagentDefinition :=
  { display_name := some ("Reviewer")
    description := some ("Focus on code review feedback")
    system_prompt := some ("Provide review comments")
    enabled := true
    allowed_tools := [("apply_patch")]
    context_sources := [("diff")]
    triggers := [("/review")] }

/-- A definition with every optional field absent and every sequence empty,
used as a concrete evaluation vector. -/
def bareDefinition : SubagentDefinition :=
  { display_name := none
    description := none
    system_prompt := none
    enabled := true
    allowed_tools := []
    context_sources := []
    triggers := [] }

/-- A run request for the reviewer subagent with no prompt and no flags. -/
def reviewerRunArgs : SubagentRunArgs :=
  { name := ("reviewer")
    prompt := none
    json := false
    oss := false
    full_auto := false
    dangerously_bypass_approvals_and_sandbox := false
    sandbox_mode := none
    cwd := none
    config_profile := none
    model := none }

/-- A run request naming a subagent that no store resolves. -/
def ghostRunArgs : SubagentRunArgs :=
  { reviewerRunArgs with name := ("ghost") }

/-- A run request exercising every argv segment. -/
def fullRunArgs : SubagentRunArgs :=
  { name := ("reviewer")
    prompt := some ("Review the diff")
    json := true
    oss := false
    full_auto := true
    dangerously_bypass_approvals_and_sandbox := false
    sandbox_mode := some SandboxModeCliArg.workspaceWrite
    cwd := some ("/tmp/work")
    config_profile := some ("ci")
    model := some ("gpt-5") }

/-- The invocation run_subagent assembles for the reviewer example run. -/
def reviewerInvocation : Invocation :=
  { argv := [("codex-subagent-run")]
    overrides :=
      [("a=1"), ("b=2"), ("subagents.reviewer.enabled=false"),
        ("subagents.reviewer.enabled=true"),
        ("base_instructions=\"Provide review comments\"")] }

theorem data_append (s t : String) : (s ++ t).data = s.data ++ t.data := rfl

theorem foldl_push_eq_map (f : String → String) (l : List String) (acc : List String) :
    l.foldl (fun acc name => acc ++ [f name]) acc = acc ++ l.map f := by
  induction l generalizing acc with
  | nil => simp
  | cons x xs ih => simp [ih]

/-- to_cli_overrides, in closed form: the enable-derived strings in enable
order, then the disable-derived strings in disable order. -/
theorem to_cli_overrides_eq (t : SubagentToggleArgs) :
    t.to_cli_overrides =
      t.enable.map (fun n => enabledOverride n true) ++
        t.disable.map (fun n => enabledOverride n false) := by
  unfold SubagentToggleArgs.to_cli_overrides
  rw [foldl_push_eq_map, foldl_push_eq_map]
  simp [enabledOverride]

theorem enabledOverride_false_ne_true (m n : String) :
    enabledOverride m false ≠ enabledOverride n true := by
  intro h
  have h2 := congrArg (fun s : String => s.data.reverse[1]?) h
  simp only [enabledOverride, Bool.false_eq_true, if_false, if_true, data_append,
    List.reverse_append] at h2
  have e1 : (".enabled=false").data.reverse =
      ['e', 's', 'l', 'a', 'f', '=', 'd', 'e', 'l', 'b', 'a', 'n', 'e', '.'] := rfl
  have e2 : (".enabled=true").data.reverse =
      ['e', 'u', 'r', 't', '=', 'd', 'e', 'l', 'b', 'a', 'n', 'e', '.'] := rfl
  rw [e1, e2] at h2
  simp at h2

theorem base_instructions_ne_enabledOverride (e n : String) (b : Bool) :
    ("base_instructions=" ++ e) ≠ enabledOverride n b := by
  intro h
  have h2 := congrArg (fun s : String => s.data[0]?) h
  have e1 : ("base_instructions=").data = 'b' :: ("ase_instructions=").data := rfl
  have e2 : ("subagents.").data = 's' :: ("ubagents.").data := rfl
  simp only [enabledOverride, data_append, e1, e2] at h2
  simp at h2

theorem fold_insert_not_mem (v : Bool) (n : String) (l : List String)
    (m0 : String → Option Bool) (h : n ∉ l) :
    (l.foldl (fun m name => hmInsert m name v) m0) n = m0 n := by
  induction l generalizing m0 with
  | nil => rfl
  | cons x xs ih =>
    have hx : n ≠ x := fun hnx => h (hnx ▸ List.mem_cons_self x xs)
    have hxs : n ∉ xs := fun hmem => h (List.mem_cons_of_mem x hmem)
    rw [List.foldl_cons, ih _ hxs]
    simp [hmInsert, hx]

theorem fold_insert_mem (v : Bool) (n : String) (l : List String)
    (m0 : String → Option Bool) (h : n ∈ l) :
    (l.foldl (fun m name => hmInsert m name v) m0) n = some v := by
  induction l generalizing m0 with
  | nil => cases h
  | cons x xs ih =>
    by_cases hxs : n ∈ xs
    · exact ih _ hxs
    · have hx : n = x := by
        rcases List.mem_cons.mp h with h1 | h1
        · exact h1
        · exact absurd h1 hxs
      rw [List.foldl_cons, fold_insert_not_mem v n xs _ hxs]
      simp [hmInsert, hx]

theorem lastEnabled_false_keep (n : String) (l : List String) :
    List.foldl (enabledStep n) (some false) (l.map (fun m => enabledOverride m false)) =
      some false := by
  induction l with
  | nil => rfl
  | cons m ms ih =>
    rw [List.map_cons, List.foldl_cons]
    have hstep : enabledStep n (some false) (enabledOverride m false) = some false := by
      unfold enabledStep
      rw [if_neg (enabledOverride_false_ne_true m n)]
      split <;> rfl
    rw [hstep, ih]

theorem lastEnabled_disable_mem (n : String) (l : List String) (acc : Option Bool)
    (h : n ∈ l) :
    List.foldl (enabledStep n) acc (l.map (fun m => enabledOverride m false)) =
      some false := by
  induction l generalizing acc with
  | nil => cases h
  | cons m ms ih =>
    by_cases hms : n ∈ ms
    · rw [List.map_cons, List.foldl_cons]
      exact ih _ hms
    · have hm : n = m := by
        rcases List.mem_cons.mp h with h1 | h1
        · exact h1
        · exact absurd h1 hms
      rw [List.map_cons, List.foldl_cons]
      have hstep : enabledStep n acc (enabledOverride m false) = some false := by
        unfold enabledStep
        rw [if_neg (enabledOverride_false_ne_true m n), if_pos (by rw [hm])]
      rw [hstep, lastEnabled_false_keep]

theorem parseToggles_counts (flags : List ToggleFlag) (t0 : SubagentToggleArgs) :
    (flags.foldl
        (fun t f =>
          match f with
          | ToggleFlag.enable n => { t with enable := t.enable ++ [n] }
          | ToggleFlag.disable n => { t with disable := t.disable ++ [n] })
        t0).enable.length +
      (flags.foldl
        (fun t f =>
          match f with
          | ToggleFlag.enable n => { t with enable := t.enable ++ [n] }
          | ToggleFlag.disable n => { t with disable := t.disable ++ [n] })
        t0).disable.length = t0.enable.length + t0.disable.length + flags.length := by
  induction flags generalizing t0 with
  | nil => simp
  | cons f fs ih =>
    cases f with
    | enable n => rw [List.foldl_cons, ih]; simp; omega
    | disable n => rw [List.foldl_cons, ih]; simp; omega

/-- Claim C5: to_map maps a name to false whenever it appears in the disable
list (even if also enabled), to true when it appears only in the enable
list, and has no entry for a name in neither list. -/
theorem claim_C5_to_map_disable_wins (t : SubagentToggleArgs) (n : String) :
    (n ∈ t.disable → t.to_map n = some false) ∧
    (n ∉ t.disable → n ∈ t.enable → t.to_map n = some true) ∧
    (n ∉ t.disable → n ∉ t.enable → t.to_map n = none) := by
  unfold SubagentToggleArgs.to_map
  refine ⟨fun hd => fold_insert_mem false n t.disable _ hd, fun hd he => ?_, fun hd he => ?_⟩
  · rw [fold_insert_not_mem false n t.disable _ hd]
    exact fold_insert_mem true n t.enable _ he
  · rw [fold_insert_not_mem false n t.disable _ hd,
      fold_insert_not_mem true n t.enable _ he]

/-- Witness for C5 at a concrete toggle set: enable a and b, disable a. -/
theorem claim_C5_witness :
    SubagentToggleArgs.to_map ⟨[("a"), ("b")], [("a")]⟩ ("a") = some false ∧
    SubagentToggleArgs.to_map ⟨[("a"), ("b")], [("a")]⟩ ("b") = some true ∧
    SubagentToggleArgs.to_map ⟨[("a"), ("b")], [("a")]⟩ ("c") = none :=
  ⟨(claim_C5_to_map_disable_wins ⟨[("a"), ("b")], [("a")]⟩ ("a")).1 (by decide),
   (claim_C5_to_map_disable_wins ⟨[("a"), ("b")], [("a")]⟩ ("b")).2.1 (by decide) (by decide),
   (claim_C5_to_map_disable_wins ⟨[("a"), ("b")], [("a")]⟩ ("c")).2.2 (by decide) (by decide)⟩

/-- Counterexample to claim C3 as stated: for the flag interleaving
`--disable a --enable a` the emitted sequence puts the enable-derived string
first, so the disable-derived string does not precede it. -/
theorem claim_C3_counterexample :
    (parseToggles [ToggleFlag.disable ("a"), ToggleFlag.enable ("a")]).to_cli_overrides =
      [("subagents.a.enabled=true"), ("subagents.a.enabled=false")] ∧
    ¬ ((parseToggles [ToggleFlag.disable ("a"), ToggleFlag.enable ("a")]).to_cli_overrides.indexOf
          ("subagents.a.enabled=false") <
        (parseToggles [ToggleFlag.disable ("a"), ToggleFlag.enable ("a")]).to_cli_overrides.indexOf
          ("subagents.a.enabled=true")) := by
  constructor
  · rfl
  · decide

/-- Claim C3 (amended): to_cli_overrides emits exactly one override string per
flag occurrence, but grouped rather than interleaved: every enable-derived
string (in enable occurrence order) comes before every disable-derived string
(in disable occurrence order). -/
theorem claim_C3_one_string_per_flag (flags : List ToggleFlag) :
    (parseToggles flags).to_cli_overrides =
      (parseToggles flags).enable.map (fun n => enabledOverride n true) ++
        (parseToggles flags).disable.map (fun n => enabledOverride n false) ∧
    (parseToggles flags).to_cli_overrides.length = flags.length := by
  refine ⟨to_cli_overrides_eq _, ?_⟩
  rw [to_cli_overrides_eq]
  have h := parseToggles_counts flags ⟨[], []⟩
  simp only [List.length_append, List.length_map]
  simpa using h

/-- Claim C9: the toggle-derived override sequence is all enable-derived
strings followed by all disable-derived strings; consequently, under
positional last-wins merging, a name in the disable list (so in particular a
name in both lists) resolves to disabled, agreeing with to_map. -/
theorem claim_C9_toggle_overrides_grouped (t : SubagentToggleArgs) (n : String) :
    t.to_cli_overrides =
      t.enable.map (fun m => enabledOverride m true) ++
        t.disable.map (fun m => enabledOverride m false) ∧
    (n ∈ t.disable →
      lastEnabledValue t.to_cli_overrides n = some false ∧ t.to_map n = some false) := by
  refine ⟨to_cli_overrides_eq t, fun hd => ⟨?_, ?_⟩⟩
  · rw [to_cli_overrides_eq]
    unfold lastEnabledValue
    rw [List.foldl_append]
    exact lastEnabled_disable_mem n t.disable _ hd
  · exact fold_insert_mem false n t.disable _ hd

/-- Witness for C9: a name that is both enabled and disabled resolves to
disabled on both the textual-override path and the map path. -/
theorem claim_C9_witness :
    lastEnabledValue (SubagentToggleArgs.to_cli_overrides ⟨[("a")], [("a")]⟩) ("a") =
      some false ∧
    SubagentToggleArgs.to_map ⟨[("a")], [("a")]⟩ ("a") = some false :=
  (claim_C9_toggle_overrides_grouped ⟨[("a")], [("a")]⟩ ("a")).2 (by decide)

/-- Claim C10: an empty store prints exactly the single no-subagents line;
a non-empty store prints the header and then one row per definition. -/
theorem claim_C10_list_lines (subagents : List (String × SubagentDefinition)) :
    (subagents = [] → print_subagent_list subagents = [("No subagents are configured.")]) ∧
    (subagents ≠ [] →
      print_subagent_list subagents =
        (padRight ("Name") 24 ++ " " ++ padRight ("Enabled") 10 ++ " Display Name") ::
          subagents.map (fun p =>
            padRight p.1 24 ++ " " ++
              padRight (if p.2.enabled then ("yes") else ("no")) 10 ++ " " ++
              (p.2.display_name.getD emDash)) ∧
      (print_subagent_list subagents).length = subagents.length + 1) := by
  constructor
  · intro h
    subst h
    rfl
  · intro h
    have he : subagents.isEmpty = false := by
      simpa [List.isEmpty_iff] using h
    refine ⟨?_, ?_⟩ <;> simp [print_subagent_list, he]

/-- Witness for C10 on an empty store and a one-entry store. -/
theorem claim_C10_witness :
    print_subagent_list [] = [("No subagents are configured.")] ∧
    (print_subagent_list [(("reviewer"), reviewerDefinition)]).length = 2 :=
  ⟨(claim_C10_list_lines []).1 rfl,
   ((claim_C10_list_lines [(("reviewer"), reviewerDefinition)]).2 (by simp)).2⟩

/-- Claim C8: the JSON show payload always has exactly the eight fields, in
order; an absent optional value is the explicit null and an absent sequence
the explicit empty array, never an omitted key. -/
theorem claim_C8_json_payload (name : String) (d : SubagentDefinition) :
    jsonKeys (showJsonPayload name d) =
      [("name"), ("display_name"), ("description"), ("enabled"), ("system_prompt"),
        ("allowed_tools"), ("context_sources"), ("triggers")] ∧
    jsonLookup ("name") (showJsonPayload name d) = some (Json.str name) ∧
    jsonLookup ("display_name") (showJsonPayload name d) = some (optStr d.display_name) ∧
    jsonLookup ("description") (showJsonPayload name d) = some (optStr d.description) ∧
    jsonLookup ("enabled") (showJsonPayload name d) = some (Json.bool d.enabled) ∧
    jsonLookup ("system_prompt") (showJsonPayload name d) = some (optStr d.system_prompt) ∧
    jsonLookup ("allowed_tools") (showJsonPayload name d) = some (strArr d.allowed_tools) ∧
    jsonLookup ("context_sources") (showJsonPayload name d) = some (strArr d.context_sources) ∧
    jsonLookup ("triggers") (showJsonPayload name d) = some (strArr d.triggers) ∧
    (d.display_name = none →
      jsonLookup ("display_name") (showJsonPayload name d) = some Json.null) ∧
    (d.allowed_tools = [] →
      jsonLookup ("allowed_tools") (showJsonPayload name d) = some (Json.arr [])) := by
  refine ⟨rfl, rfl, rfl, rfl, rfl, rfl, rfl, rfl, rfl, ?_, ?_⟩
  · intro h
    simp [jsonLookup, showJsonPayload, h, optStr]
  · intro h
    simp [jsonLookup, showJsonPayload, h, strArr]

/-- Witness for C8 at a definition with every optional field absent. -/
theorem claim_C8_witness :
    jsonLookup ("display_name") (showJsonPayload ("bare") bareDefinition) = some Json.null ∧
    jsonLookup ("allowed_tools") (showJsonPayload ("bare") bareDefinition) =
      some (Json.arr []) :=
  ⟨(claim_C8_json_payload ("bare") bareDefinition).2.2.2.2.2.2.2.2.2.1 rfl,
   (claim_C8_json_payload ("bare") bareDefinition).2.2.2.2.2.2.2.2.2.2 rfl⟩

/-- Claim C6: a name absent from the store makes show and run fail with the
unknown-subagent message, which contains the requested name verbatim; run
returns the error without assembling any invocation. -/
theorem claim_C6_unknown_subagent (subagents : List (String × SubagentDefinition))
    (args : SubagentRunArgs) (fmt : SubagentShowFormat)
    (h : subagentsGet subagents args.name = none) :
    show_subagent subagents ⟨args.name, fmt⟩ =
      Except.error ("unknown subagent `" ++ args.name ++ "`") ∧
    (∀ rootOverrides subcommandOverrides toggles,
      run_subagent subagents args rootOverrides subcommandOverrides toggles =
        Except.error ("unknown subagent `" ++ args.name ++ "`")) ∧
    args.name.data <:+: ("unknown subagent `" ++ args.name ++ "`").data := by
  refine ⟨?_, ?_, ?_⟩
  · simp [show_subagent, h]
  · intro rootOverrides subcommandOverrides toggles
    simp [run_subagent, h]
  · exact ⟨("unknown subagent `").data, ("`").data, by simp [data_append]⟩

/-- Witness for C6: the empty store resolves nothing named ghost. -/
theorem claim_C6_witness :
    show_subagent [] ⟨("ghost"), SubagentShowFormat.human⟩ =
      Except.error ("unknown subagent `ghost`") ∧
    run_subagent [] ghostRunArgs [] [] ⟨[], []⟩ =
      Except.error ("unknown subagent `ghost`") :=
  ⟨(claim_C6_unknown_subagent [] ghostRunArgs SubagentShowFormat.human rfl).1,
   (claim_C6_unknown_subagent [] ghostRunArgs SubagentShowFormat.human rfl).2.1 [] [] ⟨[], []⟩⟩

theorem push_if (X : List String) (b : Bool) (t : String) :
    (if b then X ++ [t] else X) = X ++ boolFlagTokens t b := by
  cases b <;> simp [boolFlagTokens]

theorem push_val (X : List String) (f : String) (o : Option String) :
    (match o with
      | some v => X ++ [f, v]
      | none => X) = X ++ flagValueTokens f o := by
  cases o <;> simp [flagValueTokens]

theorem push_mapped_val (X : List String) (f : String) (g : SandboxModeCliArg → String)
    (o : Option SandboxModeCliArg) :
    (match o with
      | some v => X ++ [f, g v]
      | none => X) = X ++ flagValueTokens f (o.map g) := by
  cases o <;> simp [flagValueTokens]

theorem push_positional (X : List String) (o : Option String) :
    (match o with
      | some v => X ++ [v]
      | none => X) = X ++ o.toList := by
  cases o <;> simp

/-- Claim C7: the assembled argv is the program token, then one single-token
segment per boolean flag exactly when it is set, then a flag token
immediately followed by its value token for each present value-bearing
input (the sandbox value being its canonical enumerant name), and finally
the free-form prompt when present, as the last token. -/
theorem claim_C7_argv_tokens (args : SubagentRunArgs) :
    buildArgv args =
      [("codex-subagent-run")] ++
        boolFlagTokens ("--json") args.json ++
        boolFlagTokens ("--oss") args.oss ++
        boolFlagTokens ("--full-auto") args.full_auto ++
        boolFlagTokens ("--dangerously-bypass-approvals-and-sandbox")
          args.dangerously_bypass_approvals_and_sandbox ++
        flagValueTokens ("--sandbox") (args.sandbox_mode.map sandboxModeName) ++
        flagValueTokens ("-m") args.model ++
        flagValueTokens ("-p") args.config_profile ++
        flagValueTokens ("-C") args.cwd ++
        args.prompt.toList ∧
    (∀ prompt, args.prompt = some prompt → (buildArgv args).getLast? = some prompt) := by
  constructor
  · rw [buildArgv, push_if, push_if, push_if, push_if, push_mapped_val, push_val, push_val,
      push_val, push_positional]
  · intro prompt hp
    rw [buildArgv, hp]
    simp

/-- Witness for C7 at a run request with a prompt and several flags set. -/
theorem claim_C7_witness :
    buildArgv fullRunArgs =
      [("codex-subagent-run"), ("--json"), ("--full-auto"), ("--sandbox"),
        ("workspace-write"), ("-m"), ("gpt-5"), ("-p"), ("ci"), ("-C"), ("/tmp/work"),
        ("Review the diff")] ∧
    (buildArgv fullRunArgs).getLast? = some ("Review the diff") :=
  ⟨rfl, (claim_C7_argv_tokens fullRunArgs).2 ("Review the diff") rfl⟩

theorem lastEnabled_after_forced (name : String) (acc : Option Bool)
    (d : SubagentDefinition) :
    List.foldl (enabledStep name) acc (enabledOverride name true :: promptOverrides d) =
      some true := by
  rw [List.foldl_cons]
  have hstep : enabledStep name acc (enabledOverride name true) = some true := by
    unfold enabledStep
    rw [if_pos rfl]
  rw [hstep]
  cases hp : d.system_prompt with
  | none => simp [promptOverrides, hp]
  | some prompt =>
    simp only [promptOverrides, hp, List.foldl_cons, List.foldl_nil]
    unfold enabledStep
    rw [if_neg (base_instructions_ne_enabledOverride _ name true),
      if_neg (base_instructions_ne_enabledOverride _ name false)]

/-- Claim C1: a successful run of subagent X hands the executor the override
sequence made of, in order, the root-scope textual overrides, the
subcommand-scope textual overrides, the toggle-derived override strings, the
forced enable override for X, and finally the base-instructions override
exactly when the resolved definition has a system prompt; the forced enable
override sits after every toggle-derived override, so last-wins merging
enables X for the run. -/
theorem claim_C1_final_override_sequence (subagents : List (String × SubagentDefinition))
    (args : SubagentRunArgs) (rootOverrides subcommandOverrides : List String)
    (toggles : SubagentToggleArgs) (inv : Invocation)
    (h : run_subagent subagents args rootOverrides subcommandOverrides toggles =
      Except.ok inv) :
    ∃ d, subagentsGet subagents args.name = some d ∧
      inv.overrides =
        rootOverrides ++ subcommandOverrides ++ toggles.to_cli_overrides ++
          (enabledOverride args.name true :: promptOverrides d) ∧
      lastEnabledValue inv.overrides args.name = some true := by
  rcases hd : subagentsGet subagents args.name with _ | d
  · rw [run_subagent.eq_def, hd] at h
    cases h
  · refine ⟨d, rfl, ?_⟩
    rw [run_subagent.eq_def, hd] at h
    have hov : inv.overrides =
        rootOverrides ++ subcommandOverrides ++ toggles.to_cli_overrides ++
          (enabledOverride args.name true :: promptOverrides d) := by
      cases hp : d.system_prompt with
      | none =>
        simp only [hp] at h
        cases h
        simp [promptOverrides, hp, enabledOverride, List.append_assoc]
      | some prompt =>
        simp only [hp] at h
        cases h
        simp [promptOverrides, hp, enabledOverride, List.append_assoc]
    refine ⟨hov, ?_⟩
    rw [hov]
    unfold lastEnabledValue
    rw [List.foldl_append]
    exact lastEnabled_after_forced args.name _ d

/-- Witness for C1: running reviewer with a root override, a subcommand
override and a disable toggle yields the expected sequence and an enabled
final value. -/
theorem claim_C1_witness :
    run_subagent [(("reviewer"), reviewerDefinition)] reviewerRunArgs [("a=1")] [("b=2")]
        ⟨[], [("reviewer")]⟩ = Except.ok reviewerInvocation ∧
    lastEnabledValue reviewerInvocation.overrides ("reviewer") = some true := by
  have h : run_subagent [(("reviewer"), reviewerDefinition)] reviewerRunArgs [("a=1")]
      [("b=2")] ⟨[], [("reviewer")]⟩ = Except.ok reviewerInvocation := rfl
  obtain ⟨d, _, _, hlast⟩ :=
    claim_C1_final_override_sequence [(("reviewer"), reviewerDefinition)] reviewerRunArgs
      [("a=1")] [("b=2")] ⟨[], [("reviewer")]⟩ reviewerInvocation h
  exact ⟨h, hlast⟩

theorem lineTag_name (x : String) : lineTag ("Name: " ++ x) = ("Name").data := rfl

theorem lineTag_display (x : String) :
    lineTag ("Display name: " ++ x) = ("Display name").data := rfl

theorem lineTag_description (x : String) :
    lineTag ("Description: " ++ x) = ("Description").data := rfl

theorem lineTag_enabled (x : String) : lineTag ("Enabled: " ++ x) = ("Enabled").data := rfl

theorem lineTag_prompt (x : String) :
    lineTag ("System prompt:\n" ++ x) = ("System prompt").data := rfl

theorem lineTag_tools (ts : List String) :
    lineTag (if ts.isEmpty then ("Allowed tools: (inherit default)")
      else ("Allowed tools: " ++ joinComma ts)) = ("Allowed tools").data := by
  split <;> rfl

theorem lineTag_context (ts : List String) :
    lineTag (if ts.isEmpty then ("Context sources: (none)")
      else ("Context sources: " ++ joinComma ts)) = ("Context sources").data := by
  split <;> rfl

theorem lineTag_triggers (ts : List String) :
    lineTag (if ts.isEmpty then ("Triggers: (manual)")
      else ("Triggers: " ++ joinComma ts)) = ("Triggers").data := by
  split <;> rfl

/-- Counterexample to claim C4 as stated: for a definition with an absent
display name, the JSON payload carries the field as an explicit null while
the human-readable output contains no line for it at all, so the field is
omitted from one format while present in the other. -/
theorem claim_C4_counterexample :
    jsonKeys (showJsonPayload ("bare") bareDefinition) =
      [("name"), ("display_name"), ("description"), ("enabled"), ("system_prompt"),
        ("allowed_tools"), ("context_sources"), ("triggers")] ∧
    jsonLookup ("display_name") (showJsonPayload ("bare") bareDefinition) =
      some Json.null ∧
    (humanShowLines ("bare") bareDefinition).countP
      (fun l => lineTag l == ("Display name").data) = 0 :=
  ⟨rfl, rfl, rfl⟩

/-- Claim C4 (amended): the JSON payload always exposes all eight fields
with explicit null or empty markers, and the human format always renders
the name, enabled and the three sequence fields, but renders each optional
scalar field (display name, description, system prompt) only when present,
omitting its line entirely when absent — so the two field sets agree only
when no optional scalar field is absent. -/
theorem claim_C4_show_field_rendering (name : String) (d : SubagentDefinition) :
    jsonKeys (showJsonPayload name d) =
      [("name"), ("display_name"), ("description"), ("enabled"), ("system_prompt"),
        ("allowed_tools"), ("context_sources"), ("triggers")] ∧
    (humanShowLines name d).countP (fun l => lineTag l == ("Name").data) = 1 ∧
    (humanShowLines name d).countP (fun l => lineTag l == ("Display name").data) =
      (if d.display_name.isSome then 1 else 0) ∧
    (humanShowLines name d).countP (fun l => lineTag l == ("Description").data) =
      (if d.description.isSome then 1 else 0) ∧
    (humanShowLines name d).countP (fun l => lineTag l == ("Enabled").data) = 1 ∧
    (humanShowLines name d).countP (fun l => lineTag l == ("System prompt").data) =
      (if d.system_prompt.isSome then 1 else 0) ∧
    (humanShowLines name d).countP (fun l => lineTag l == ("Allowed tools").data) = 1 ∧
    (humanShowLines name d).countP (fun l => lineTag l == ("Context sources").data) = 1 ∧
    (humanShowLines name d).countP (fun l => lineTag l == ("Triggers").data) = 1 := by
  refine ⟨rfl, ?_⟩
  rcases hdn : d.display_name with _ | v1 <;> rcases hds : d.description with _ | v2 <;>
    rcases hsp : d.system_prompt with _ | v3 <;>
    simp only [humanShowLines, hdn, hds, hsp, Option.isSome_none, Option.isSome_some,
      List.countP_append, List.countP_cons, List.countP_nil, List.nil_append,
      List.append_nil, lineTag_name, lineTag_display, lineTag_description,
      lineTag_enabled, lineTag_prompt, lineTag_tools, lineTag_context,
      lineTag_triggers] <;>
    exact ⟨rfl, rfl, rfl, rfl, rfl, rfl, rfl, rfl⟩

theorem hexCharValue_hexDigitChar (n : Nat) (h : n < 16) :
    hexCharValue (hexDigitChar n) = some n := by
  interval_cases n <;> rfl

theorem hexCharValue_zero : hexCharValue ('0') = some 0 := rfl

theorem decode_quote (k : List Char) : decodeBasicBody (('"') :: k) = some ([], k) := by
  rw [decodeBasicBody.eq_def]
  simp

theorem decode_esc_b (X : List Char) :
    decodeBasicBody (('\\') :: ('b') :: X) =
      (decodeBasicBody X).map (fun p => (Char.ofNat 8 :: p.1, p.2)) := by
  rw [decodeBasicBody.eq_def]
  simp

theorem decode_esc_t (X : List Char) :
    decodeBasicBody (('\\') :: ('t') :: X) =
      (decodeBasicBody X).map (fun p => ('\t' :: p.1, p.2)) := by
  rw [decodeBasicBody.eq_def]
  simp

theorem decode_esc_n (X : List Char) :
    decodeBasicBody (('\\') :: ('n') :: X) =
      (decodeBasicBody X).map (fun p => ('\n' :: p.1, p.2)) := by
  rw [decodeBasicBody.eq_def]
  simp

theorem decode_esc_f (X : List Char) :
    decodeBasicBody (('\\') :: ('f') :: X) =
      (decodeBasicBody X).map (fun p => (Char.ofNat 12 :: p.1, p.2)) := by
  rw [decodeBasicBody.eq_def]
  simp

theorem decode_esc_r (X : List Char) :
    decodeBasicBody (('\\') :: ('r') :: X) =
      (decodeBasicBody X).map (fun p => ('\r' :: p.1, p.2)) := by
  rw [decodeBasicBody.eq_def]
  simp

theorem decode_esc_quote (X : List Char) :
    decodeBasicBody (('\\') :: ('"') :: X) =
      (decodeBasicBody X).map (fun p => (('"') :: p.1, p.2)) := by
  rw [decodeBasicBody.eq_def]
  simp

theorem decode_esc_backslash (X : List Char) :
    decodeBasicBody (('\\') :: ('\\') :: X) =
      (decodeBasicBody X).map (fun p => (('\\') :: p.1, p.2)) := by
  rw [decodeBasicBody.eq_def]
  simp

theorem decode_esc_u (a b : Char) (va vb : Nat) (X : List Char)
    (ea : hexCharValue a = some va) (eb : hexCharValue b = some vb) :
    decodeBasicBody (('\\') :: ('u') :: ('0') :: ('0') :: a :: b :: X) =
      (decodeBasicBody X).map
        (fun p => (Char.ofNat (((0 * 16 + 0) * 16 + va) * 16 + vb) :: p.1, p.2)) := by
  rw [decodeBasicBody.eq_def]
  simp [hexCharValue_zero, ea, eb]

theorem decode_raw (c : Char) (X : List Char) (hq : ¬ c = '"') (hb : ¬ c = '\\')
    (hc : ¬ (c.toNat < 32 ∨ c.toNat = 127)) :
    decodeBasicBody (c :: X) = (decodeBasicBody X).map (fun p => (c :: p.1, p.2)) := by
  rw [decodeBasicBody.eq_def]
  simp [hq, hb, hc]

theorem escapeChar_control (c : Char) (h8 : c.toNat < 32 ∨ c.toNat = 127)
    (h1 : ¬ c = Char.ofNat 8) (h2 : ¬ c = '\t') (h3 : ¬ c = '\n')
    (h4 : ¬ c = Char.ofNat 12) (h5 : ¬ c = '\r') (h6 : ¬ c = '"') (h7 : ¬ c = '\\') :
    escapeChar c =
      ['\\', 'u', '0', '0', hexDigitChar (c.toNat / 16), hexDigitChar (c.toNat % 16)] := by
  simp [escapeChar, h1, h2, h3, h4, h5, h6, h7, h8]

theorem escapeChar_raw (c : Char)
    (h1 : ¬ c = Char.ofNat 8) (h2 : ¬ c = '\t') (h3 : ¬ c = '\n')
    (h4 : ¬ c = Char.ofNat 12) (h5 : ¬ c = '\r') (h6 : ¬ c = '"') (h7 : ¬ c = '\\')
    (h8 : ¬ (c.toNat < 32 ∨ c.toNat = 127)) :
    escapeChar c = [c] := by
  simp [escapeChar, h1, h2, h3, h4, h5, h6, h7, h8]

theorem decode_step (c : Char) (X : List Char) :
    decodeBasicBody (escapeChar c ++ X) =
      (decodeBasicBody X).map (fun p => (c :: p.1, p.2)) := by
  by_cases h1 : c = Char.ofNat 8
  · subst h1
    exact decode_esc_b X
  by_cases h2 : c = '\t'
  · subst h2
    exact decode_esc_t X
  by_cases h3 : c = '\n'
  · subst h3
    exact decode_esc_n X
  by_cases h4 : c = Char.ofNat 12
  · subst h4
    exact decode_esc_f X
  by_cases h5 : c = '\r'
  · subst h5
    exact decode_esc_r X
  by_cases h6 : c = '"'
  · subst h6
    exact decode_esc_quote X
  by_cases h7 : c = '\\'
  · subst h7
    exact decode_esc_backslash X
  by_cases h8 : c.toNat < 32 ∨ c.toNat = 127
  · rw [escapeChar_control c h8 h1 h2 h3 h4 h5 h6 h7]
    simp only [List.cons_append, List.nil_append]
    have hna : c.toNat / 16 < 16 := by rcases h8 with h | h <;> omega
    have hnb : c.toNat % 16 < 16 := by omega
    rw [decode_esc_u _ _ _ _ _ (hexCharValue_hexDigitChar _ hna)
      (hexCharValue_hexDigitChar _ hnb)]
    have harith : ((0 * 16 + 0) * 16 + c.toNat / 16) * 16 + c.toNat % 16 = c.toNat := by
      omega
    rw [harith, Char.ofNat_toNat]
  · rw [escapeChar_raw c h1 h2 h3 h4 h5 h6 h7 h8, List.singleton_append,
      decode_raw c X h6 h7 h8]

theorem decodeBasicBody_encode (s k : List Char) :
    decodeBasicBody (s.flatMap escapeChar ++ ('"') :: k) = some (s, k) := by
  induction s with
  | nil =>
    rw [List.flatMap_nil, List.nil_append, decode_quote]
  | cons c s ih =>
    rw [List.flatMap_cons, List.append_assoc, decode_step, ih]
    rfl


theorem hexDigitChar_ne_newline (n : Nat) (h : n < 16) : ¬ ('\n') = hexDigitChar n := by
  interval_cases n <;> decide

theorem newline_not_mem_escapeChar (c : Char) : ('\n') ∉ escapeChar c := by
  by_cases h1 : c = Char.ofNat 8
  · subst h1; decide
  by_cases h2 : c = '\t'
  · subst h2; decide
  by_cases h3 : c = '\n'
  · subst h3; decide
  by_cases h4 : c = Char.ofNat 12
  · subst h4; decide
  by_cases h5 : c = '\r'
  · subst h5; decide
  by_cases h6 : c = '"'
  · subst h6; decide
  by_cases h7 : c = '\\'
  · subst h7; decide
  by_cases h8 : c.toNat < 32 ∨ c.toNat = 127
  · rw [escapeChar_control c h8 h1 h2 h3 h4 h5 h6 h7]
    intro hmem
    have hna : c.toNat / 16 < 16 := by rcases h8 with h | h <;> omega
    have hnb : c.toNat % 16 < 16 := by omega
    simp only [List.mem_cons, List.not_mem_nil, or_false] at hmem
    rcases hmem with h | h | h | h | h | h
    · exact absurd h (by decide)
    · exact absurd h (by decide)
    · exact absurd h (by decide)
    · exact absurd h (by decide)
    · exact hexDigitChar_ne_newline _ hna h
    · exact hexDigitChar_ne_newline _ hnb h
  · rw [escapeChar_raw c h1 h2 h3 h4 h5 h6 h7 h8]
    intro hmem
    rcases List.mem_singleton.mp hmem with h
    exact h3 h.symm

/-- Claim C2: for every system prompt string, the value emitted in the
base-instructions override is its quoted/escaped TOML-string encoding;
decoding that value with the same scalar grammar consumes it entirely and
yields exactly the prompt, and the encoded value contains no raw newline,
so it can neither terminate the value position early nor introduce
additional key/value pairs. -/
theorem claim_C2_prompt_roundtrip (P : String) :
    decodeTomlString (encodeTomlString P) = some P ∧
    ('\n') ∉ (encodeTomlString P).data := by
  constructor
  · have h := decodeBasicBody_encode P.data []
    show (match decodeBasicBody (P.data.flatMap escapeChar ++ [('"')]) with
      | some (content, []) => some (String.mk content)
      | _ => none) = some P
    rw [h]
  · intro hmem
    have hdata : (encodeTomlString P).data =
        ('"') :: (P.data.flatMap escapeChar ++ [('"')]) := rfl
    rw [hdata] at hmem
    simp only [List.mem_cons, List.mem_append, List.mem_flatMap,
      List.mem_singleton] at hmem
    rcases hmem with h | ⟨c, _, hin⟩ | h
    · exact absurd h (by decide)
    · exact newline_not_mem_escapeChar c hin
    · exact absurd h (by decide)

/-- Witness for C2 at a prompt containing a double quote, a backslash and a
newline. -/
theorem claim_C2_witness :
    decodeTomlString (encodeTomlString ("say \"hi\" \\ twice\nthen stop")) =
      some ("say \"hi\" \\ twice\nthen stop") ∧
    ('\n') ∉ (encodeTomlString ("say \"hi\" \\ twice\nthen stop")).data :=
  claim_C2_prompt_roundtrip ("say \"hi\" \\ twice\nthen stop")
